import Mathlib

/-!
# Verification of the wheel install/build core and the resolution strategy layer

Shallow embedding of `pip/wheel.py` (installing and building "wheel" binary
packages) and `src/pip/_internal/resolution/resolvelib/strategy.py`.  Pure
functions of the source become Lean functions; the filesystem effects of the
manifest rewrite become an explicit operation list over a filesystem state;
external collaborators (the hash library, the build subprocess) become
explicit function parameters.  All definitions come first, then the theorems.
-/

namespace PipWheel

/-! ## String primitives

Python string operations work on code points, so they are modelled on
`List Char` by structurally recursive functions (rather than through the
byte-position-based core `String` API, whose well-founded recursions do not
reduce inside the kernel). -/

abbrev Str := List Char

/-- `str.replace(c, d)` for one-character patterns: replace every occurrence. -/
def replaceChar (c d : Char) (s : Str) : Str := s.map (fun x => if x = c then d else x)

/-- Python `str.split(c)` for a one-character separator (no collapsing of
empty parts). -/
def splitOnChar (c : Char) : Str → List Str
  | [] => [[]]
  | x :: xs =>
    match splitOnChar c xs with
    | [] => [[x]]
    | h :: t => if x = c then [] :: h :: t else (x :: h) :: t

/-- `str.startswith`. -/
def str_startsWith (s pre : String) : Bool := pre.toList.isPrefixOf s.toList

/-- `str.endswith`. -/
def str_endsWith (s suf : String) : Bool := suf.toList.isSuffixOf s.toList

/-- `s[:-n]` for `n ≤ len(s)`: drop the last `n` characters. -/
def str_dropRight (s : String) (n : Nat) : String :=
  String.mk (s.toList.take (s.toList.length - n))

/-- `sep.join(parts)`. -/
def joinWith (sep : String) : List String → String
  | [] => ""
  | [x] => x
  | x :: xs => x ++ sep ++ joinWith sep xs

/-- The `/`-separated segments of a path. -/
def path_segments (s : String) : List String := (splitOnChar '/' s.toList).map String.mk

/-- ASCII lowering, as `str.lower()` is used by the source on directory names. -/
def str_lower (s : String) : String := String.mk (s.toList.map Char.toLower)

/-! ## Path helpers (POSIX conventions, as used by the source) -/

/-- `os.path.join(a, b)` for POSIX paths: an absolute `b` discards `a`. -/
def os_path_join (a b : String) : String :=
  if str_startsWith b "/" then b
  else if a = "" then b
  else if str_endsWith a "/" then a ++ b
  else a ++ "/" ++ b

/-- `os.path.split`: split a path into `(dirname, basename)` at the last slash. -/
def os_path_split (p : String) : String × String :=
  match (path_segments p).reverse with
  | [] => ("", p)
  | [x] => ("", x)
  | x :: rest => (joinWith "/" rest.reverse, x)

/-- Drop the longest common leading run of two segment lists. -/
def dropCommon : List String → List String → List String × List String
  | a :: as, b :: bs => if a = b then dropCommon as bs else (a :: as, b :: bs)
  | as, bs => (as, bs)

/-- Modelled from the spec: `make_path_relative` from `pip.util` is not part of
the included sources.  Per the spec (§3 InstalledFileMap, §4.3 step 6) the
installer records each file under its final install path *expressed relative
to a root directory*.  This models the helper: express path `p` relative to
directory `root`, joining `..` segments for the unshared part of `root`. -/
def make_path_relative (p root : String) : String :=
  let parts := path_segments p
  let base := parts.getLastD ""
  let dirParts := parts.dropLast
  let rootParts := path_segments root
  let rest := dropCommon dirParts rootParts
  let full := rest.1 ++ [base]
  if full = [""] then "."
  else joinWith "/" (List.replicate rest.2.length ".." ++ full)

/-! ## `rehash`: the content hasher (`wheel.py` lines 34-45)

`hashlib` is an external library: the digest family is the explicit parameter
`new : String → List Nat → List Nat` standing for `hashlib.new(algo)` followed
by feeding it bytes and taking `digest()` (a streaming hash digests the
concatenation of all `update` calls).  Bytes are `Nat`s below 256. -/

/-- The block-read loop: `f.read(blocksize)` until an empty block.  With
`blocksize = 0` Python's `read(0)` returns `b''` at once and the loop body
never runs. -/
def readBlocks (blocksize : Nat) (content : List Nat) : List (List Nat) :=
  if h : blocksize = 0 ∨ content = [] then []
  else content.take blocksize :: readBlocks blocksize (content.drop blocksize)
termination_by content.length
decreasing_by
  push_neg at h
  have h1 : 0 < blocksize := Nat.pos_of_ne_zero h.1
  have h2 : 0 < content.length := List.length_pos.mpr h.2
  simpa using Nat.sub_lt h2 h1

/-- One sextet of the URL-safe base64 alphabet (`-` and `_` at 62 and 63). -/
def b64char (n : Nat) : Char :=
  if n < 26 then Char.ofNat (65 + n)
  else if n < 52 then Char.ofNat (97 + (n - 26))
  else if n < 62 then Char.ofNat (48 + (n - 52))
  else if n = 62 then '-' else '_'

/-- Base64 encoding of a byte list in 3-byte groups, with `=` padding. -/
def b64groups : List Nat → List Char
  | [] => []
  | [a] =>
    let a := a % 256
    [b64char (a / 4), b64char ((a % 4) * 16), '=', '=']
  | [a, b] =>
    let a := a % 256; let b := b % 256
    [b64char (a / 4), b64char ((a % 4) * 16 + b / 16), b64char ((b % 16) * 4), '=']
  | a :: b :: c :: rest =>
    let a := a % 256; let b := b % 256; let c := c % 256
    b64char (a / 4) :: b64char ((a % 4) * 16 + b / 16) :: b64char ((b % 16) * 4 + c / 64)
      :: b64char (c % 64) :: b64groups rest

/-- `urlsafe_b64encode(..).decode('latin1').rstrip('=')`. -/
def urlsafe_b64encode_nopad (bs : List Nat) : String :=
  String.mk (((b64groups bs).reverse.dropWhile (fun c => c = '=')).reverse)

/-- `rehash(path, algo='sha256', blocksize=1<<20)`: stream the file in blocks
through `hashlib.new(algo)`, counting bytes; note the source builds the tag of
the returned digest from the literal `'sha256='`, not from `algo`. -/
def rehash (new : String → List Nat → List Nat) (algo : String) (blocksize : Nat)
    (content : List Nat) : String × Nat :=
  let bs := readBlocks blocksize content
  let length := bs.foldl (fun n b => n + b.length) 0
  let digest := "sha256=" ++ urlsafe_b64encode_nopad (new algo bs.flatten)
  (digest, length)

/-! ## The archive identity parser (`Wheel`, `wheel.py` lines 329-370)

`wheel_file_re` is matched with Python backtracking semantics: alternatives
are tried left to right, a non-greedy `+?`/`*?` tries shorter matches first,
a greedy optional group tries the present branch first, and the first overall
success wins.  `tryPrefixes` enumerates the nonempty prefixes of a string
shortest-first, which is exactly the candidate order of a non-greedy `.+?`. -/

/-- Try every split `s = pre ++ suf` with `pre` nonempty, shortest `pre`
first, returning the first success of the continuation: the candidate order
of a non-greedy `.+?`. -/
def tryPrefixes {α : Type} : Str → (Str → Str → Option α) → Option α
  | [], _ => none
  | c :: rest, k => (k [c] rest) <|> tryPrefixes rest (fun p suf => k (c :: p) suf)

/-- Like `tryPrefixes` but also allows the empty prefix (tried first): the
candidate order of a non-greedy `.*?`. -/
def tryPrefixes0 {α : Type} (s : Str) (k : Str → Str → Option α) : Option α :=
  k [] s <|> tryPrefixes s k

def whlChars : Str := ['.', 'w', 'h', 'l']

def distInfoChars : Str := ['.', 'd', 'i', 's', 't', '-', 'i', 'n', 'f', 'o']

/-- Captures of `wheel_file_re`: `None` groups are `none`. -/
structure WheelGroups where
  name : Str
  ver : Option Str
  build : Option Str
  pyver : Option Str
  abi : Option Str
  plat : Option Str
deriving DecidableEq, Repr

/-- The continuation after the `plat` group: the literal `\.whl` and the
end-of-string anchor, succeeding with the three captured tags. -/
def plCont (py ab : Str) (pl r6 : Str) : Option (Str × Str × Str) :=
  if r6 = whlChars then some (py, ab, pl) else none

/-- The continuation after the `abi` group: the literal `-`, then the
non-greedy `plat` group. -/
def abCont (py ab : Str) : Str → Option (Str × Str × Str)
  | c :: r5 => if c = '-' then tryPrefixes r5 (plCont py ab) else none
  | [] => none

/-- The continuation after the `pyver` group: the literal `-`, then the
non-greedy `abi` group. -/
def pyCont (py : Str) : Str → Option (Str × Str × Str)
  | c :: r3 => if c = '-' then tryPrefixes r3 (abCont py) else none
  | [] => none

/-- `-(?P<pyver>.+?)-(?P<abi>.+?)-(?P<plat>.+?)\.whl` against the rest of the
input (the end-of-string anchor is the final equality test in `plCont`). -/
def matchPats : Str → Option (Str × Str × Str)
  | c :: r1 => if c = '-' then tryPrefixes r1 pyCont else none
  | [] => none

/-- The continuation inside the build group: tag the captured build (first
digit `d`, then the `.*?` part) onto a `matchPats` success. -/
def buildCont (d : Char) (b r2 : Str) : Option (Option Str × Str × Str × Str) :=
  (matchPats r2).map (fun t => (some (d :: b), t))

/-- The present-branch of `(-(?P<build>\d.*?))?`: a `-`, a digit, then the
non-greedy (possibly empty) rest of the build tag. -/
def buildGroupBranch : Str → Option (Option Str × Str × Str × Str)
  | c :: d :: r1 =>
    if c = '-' ∧ d.isDigit = true then tryPrefixes0 r1 (buildCont d) else none
  | _ => none

/-- `(-(?P<build>\d.*?))?-(?P<pyver>.+?)-(?P<abi>.+?)-(?P<plat>.+?)\.whl`:
the greedy optional build group is tried present-first. -/
def matchWhl (r : Str) : Option (Option Str × Str × Str × Str) :=
  buildGroupBranch r <|> (matchPats r).map (fun t => (none, t))

/-- The alternation after `namever`: the `.whl` branch, else `\.dist-info`.
Result: the build group and, for the `.whl` branch, the three tag groups. -/
def matchAfterNamever (r : Str) : Option (Option Str × Option (Str × Str × Str)) :=
  (matchWhl r).map (fun bt => (bt.1, some bt.2)) <|>
    (if r = distInfoChars then some (none, none) else none)

/-- Captures of `wheel_file_re` assembled into a `WheelGroups`. -/
def mkGroups (nm : Str) (ver : Option Str)
    (bt : Option Str × Option (Str × Str × Str)) : WheelGroups :=
  { name := nm, ver := ver, build := bt.1,
    pyver := (bt.2).map (fun t => t.1),
    abi := (bt.2).map (fun t => t.2.1),
    plat := (bt.2).map (fun t => t.2.2) }

/-- The continuation inside the ver group: after the captured version (first
digit `d`, then the non-greedy rest `v`), match the trailing alternation. -/
def verCont (nm : Str) (d : Char) (v r2 : Str) : Option WheelGroups :=
  (matchAfterNamever r2).map (fun bt => mkGroups nm (some (d :: v)) bt)

/-- The present-branch of `(-(?P<ver>\d.+?))?`: a `-`, a digit, then the
non-greedy nonempty rest of the version. -/
def verGroupBranch (nm : Str) : Str → Option WheelGroups
  | c :: d :: r1 =>
    if c = '-' ∧ d.isDigit = true then tryPrefixes r1 (verCont nm d) else none
  | _ => none

/-- The continuation after the non-greedy `name` group: the greedy optional
ver group first, then the trailing alternation without a version. -/
def nameStep (nm r : Str) : Option WheelGroups :=
  verGroupBranch nm r <|> (matchAfterNamever r).map (fun bt => mkGroups nm none bt)

/-- The whole of `wheel_file_re` applied to `s` (anchored both ends):
`^(?P<namever>(?P<name>.+?)(-(?P<ver>\d.+?))?)((-(?P<build>\d.*?))?-`
`(?P<pyver>.+?)-(?P<abi>.+?)-(?P<plat>.+?)\.whl|\.dist-info)$`. -/
def wheel_file_re_match (s : Str) : Option WheelGroups :=
  tryPrefixes s (fun nm r => nameStep nm r)

/-- A `.whl` archive filename assembled from its grammar components
(no build tag): `{name}-{version}-{pytag}-{abitag}-{platformtag}.whl`. -/
def whl_filename (nm v py ab pl : Str) : Str :=
  nm ++ '-' :: (v ++ '-' :: (py ++ '-' :: (ab ++ '-' :: (pl ++ whlChars))))

/-- A `.whl` archive filename assembled from its grammar components with a
build tag: `{name}-{version}-{build}-{pytag}-{abitag}-{platformtag}.whl`. -/
def whl_filename_build (nm v b py ab pl : Str) : Str :=
  nm ++ '-' :: (v ++ '-' :: (b ++ '-' :: (py ++ '-' :: (ab ++ '-' :: (pl ++ whlChars)))))

/-- The parsed identity built by `Wheel.__init__`. -/
structure Wheel where
  filename : String
  name : String
  version : String
  pyversions : List String
  abis : List String
  plats : List String
deriving DecidableEq, Repr

/-- `Wheel.__init__(filename)`: match `wheel_file_re`, normalize underscores
to hyphens in name and version, and dot-split the three tag groups.  `none`
models the `AttributeError` Python raises when the regex fails to match or a
used group is `None` (as for `.dist-info` names, which have no tag groups). -/
def Wheel.init (filename : String) : Option Wheel :=
  match wheel_file_re_match filename.toList with
  | none => none
  | some g =>
    match g.ver, g.pyver, g.abi, g.plat with
    | some v, some py, some ab, some pl =>
      some { filename := filename,
             name := String.mk (replaceChar '_' '-' g.name),
             version := String.mk (replaceChar '_' '-' v),
             pyversions := (splitOnChar '.' py).map String.mk,
             abis := (splitOnChar '.' ab).map String.mk,
             plats := (splitOnChar '.' pl).map String.mk }
    | _, _, _, _ => none

/-- `self.file_tags`: all `(python, abi, platform)` combinations. -/
def Wheel.file_tags (w : Wheel) : List (String × String × String) :=
  w.pyversions.flatMap (fun x => w.abis.flatMap (fun y => w.plats.map (fun z => (x, y, z))))

/-- `Wheel.support_index_min(tags)`: the minimum of `tags.index(c)` over the
file tags present in `tags`, else `None`. -/
def Wheel.support_index_min (w : Wheel) (tags : List (String × String × String)) :
    Option Nat :=
  ((w.file_tags.filter (fun c => tags.contains c)).map (fun c => tags.indexOf c)).min?

/-- `Wheel.supported(tags)`: is the intersection of `tags` and the file tags
non-empty? -/
def Wheel.supported (w : Wheel) (tags : List (String × String × String)) : Bool :=
  tags.any (fun t => w.file_tags.contains t)

/-! ## The top-level relocation walk (`clobber`, `wheel.py` lines 154-174)

The subdirectory loop of the first (`is_base`, `basedir = ''`) iteration of
`os.walk`: `.data` directories are collected and skipped, and a directory
ending in `.dist-info` whose lowered name starts with the normalized project
name must be unique (`assert not info_dir`), modelled as `Except.error`. -/

/-- The `.dist-info` test of `clobber`: `s.endswith('.dist-info') and
s.lower().startswith(req.project_name.replace('-', '_').lower())`. -/
def dist_info_cond (project_name s : String) : Bool :=
  str_endsWith s ".dist-info" &&
    str_startsWith (str_lower s) (str_lower (String.mk (replaceChar '-' '_' project_name.toList)))

/-- The loop over top-level subdirectories, carrying `info_dir` and
`data_dirs`; a second matching `.dist-info` directory trips the assertion. -/
def clobber_top_go (dest project_name : String) (info_dir data_dirs : List String) :
    List String → Except String (List String × List String)
  | [] => .ok (info_dir, data_dirs)
  | s :: rest =>
    let destsubdir := os_path_join dest s
    if str_endsWith destsubdir ".data" then
      clobber_top_go dest project_name info_dir (data_dirs ++ [s]) rest
    else if dist_info_cond project_name s then
      if info_dir = [] then
        clobber_top_go dest project_name (info_dir ++ [destsubdir]) data_dirs rest
      else .error "Multiple .dist-info directories"
    else clobber_top_go dest project_name info_dir data_dirs rest

/-- The top-level subdirectory pass of `clobber source lib_dir True`. -/
def clobber_top (dest project_name : String) (subdirs : List String) :
    Except String (List String × List String) :=
  clobber_top_go dest project_name [] [] subdirs

/-! ## The manifest (RECORD) rewrite (`wheel.py` lines 143-152 and 278-294) -/

/-- A RECORD row: path, hash, length (all strings in the csv). -/
abbrev RecordRow := String × String × String

/-- `normpath(src, p)`: relative path with `/` separators (already POSIX). -/
def normpath (p root : String) : String := make_path_relative p root

/-- `record_installed(srcfile, destfile, modified)` acting on the
`(installed, changed)` state: `installed[oldpath] = newpath` maps the
archive-relative source path to the lib-relative destination path, while
`changed` collects the *un-normalized* `destfile`. -/
def record_installed (wheeldir lib_dir : String)
    (st : List (String × String) × List String)
    (srcfile destfile : String) (modified : Bool) :
    List (String × String) × List String :=
  (st.1 ++ [(normpath srcfile wheeldir, normpath destfile lib_dir)],
   if modified then st.2 ++ [destfile] else st.2)

/-- `installed.pop(row[0], row[0])`: look up and remove, defaulting to the
key itself. -/
def installed_pop (installed : List (String × String)) (k : String) :
    String × List (String × String) :=
  match installed.lookup k with
  | some v => (v, installed.eraseP (fun kv => kv.1 == k))
  | none => (k, installed)

/-- The reader loop of the RECORD rewrite: translate each row's path through
`installed` (popping), and rehash exactly when the translated path is in
`changed`.  `hashOf` stands for `rehash` on the installed tree.  Returns the
rewritten rows and the leftover `installed` entries. -/
def process_rows (changed : List String) (hashOf : String → String × Nat) :
    List (String × String) → List RecordRow → List RecordRow × List (String × String)
  | installed, [] => ([], installed)
  | installed, (p, h, l) :: rest =>
    let pi := installed_pop installed p
    let row : RecordRow :=
      if pi.1 ∈ changed then
        let hl := hashOf pi.1
        (pi.1, hl.1, toString hl.2)
      else (pi.1, h, l)
    let rs := process_rows changed hashOf pi.2 rest
    (row :: rs.1, rs.2)

/-- The complete content of the rewritten RECORD: the translated reader rows,
then a freshly hashed row per generated script, then placeholder rows for the
leftover `installed` entries. -/
def rewritten_record (changed : List String) (hashOf : String → String × Nat)
    (installed : List (String × String)) (generated : List String)
    (rows : List RecordRow) : List RecordRow :=
  let pr := process_rows changed hashOf installed rows
  pr.1 ++ generated.map (fun f => let hl := hashOf f; (f, hl.1, toString hl.2))
    ++ pr.2.map (fun kv => (kv.2, "", ""))

/-! ## Durability of the manifest rewrite (`wheel.py` lines 278-294)

The writes of the rewrite as an explicit operation sequence over a filesystem
state (path ↦ row list): create the temp file, append each row to it, and
finally `shutil.move` it over RECORD. -/

inductive FsOp where
  | createFile (p : String)
  | writeRow (p : String) (r : RecordRow)
  | moveFile (src dst : String)

/-- Effect of one operation on the filesystem. -/
def applyOp (fs : String → Option (List RecordRow)) :
    FsOp → String → Option (List RecordRow)
  | .createFile p, q => if q = p then some [] else fs q
  | .writeRow p r, q => if q = p then some ((fs p).getD [] ++ [r]) else fs q
  | .moveFile s d, q => if q = d then fs s else if q = s then none else fs q

/-- Run a sequence of filesystem operations. -/
def run_ops (fs : String → Option (List RecordRow)) (ops : List FsOp) :
    String → Option (List RecordRow) :=
  ops.foldl applyOp fs

/-- The operation sequence of the rewrite: every write goes to
`RECORD.pip`, and only the final move touches `RECORD`. -/
def record_rewrite_ops (info_dir : String) (newRows : List RecordRow) : List FsOp :=
  let record := os_path_join info_dir "RECORD"
  let temp_record := os_path_join info_dir "RECORD.pip"
  FsOp.createFile temp_record :: newRows.map (FsOp.writeRow temp_record)
    ++ [FsOp.moveFile temp_record record]

/-! ## Entry-point generation (`wheel.py` lines 248-276)

`ScriptMaker` is vendored distlib, outside the source tree.  Modelled from
the spec (§4.4): each spec passed to `maker.make` becomes exactly one
launcher, identified below by its entry-point name. -/

/-- `re.match(r'pip(\d(\.\d)?)?$', k)`. -/
def pip_versioned (k : String) : Bool :=
  match k.toList with
  | ['p', 'i', 'p'] => true
  | ['p', 'i', 'p', d] => d.isDigit
  | ['p', 'i', 'p', d, '.', e] => d.isDigit && e.isDigit
  | _ => false

/-- `re.match(r'easy_install(-\d\.\d)?$', k)`. -/
def easy_install_versioned (k : String) : Bool :=
  match k.toList with
  | ['e', 'a', 's', 'y', '_', 'i', 'n', 's', 't', 'a', 'l', 'l'] => true
  | ['e', 'a', 's', 'y', '_', 'i', 'n', 's', 't', 'a', 'l', 'l', '-', d, '.', e] =>
    d.isDigit && e.isDigit
  | _ => false

/-- `dict.pop(k, None)` on an association list. -/
def dict_pop (d : List (String × String)) (k : String) :
    Option String × List (String × String) :=
  match d.lookup k with
  | some v => (some v, d.eraseP (fun kv => kv.1 == k))
  | none => (none, d)

/-- Lines 248-276: pop `pip` and generate `pip`, `pip{major}`,
`pip{major.minor}`, deleting other version-qualified `pip` entries; pop
`easy_install` and generate `easy_install`, `easy_install-{major.minor}`,
deleting other version-qualified `easy_install` entries; then one launcher
per remaining console entry and one per gui entry.  `ver1` is
`sys.version[:1]`, `ver3` is `sys.version[:3]`.  Returns the generated
launcher names in order. -/
def console_entry_points (console gui : List (String × String)) (ver1 ver3 : String) :
    List String :=
  let p := dict_pop console "pip"
  let pipStep : List String × List (String × String) :=
    match p.1 with
    | some _ => (["pip", "pip" ++ ver1, "pip" ++ ver3],
                 p.2.filter (fun kv => !(pip_versioned kv.1)))
    | none => ([], p.2)
  let e := dict_pop pipStep.2 "easy_install"
  let eiStep : List String × List (String × String) :=
    match e.1 with
    | some _ => (["easy_install", "easy_install-" ++ ver3],
                 e.2.filter (fun kv => !(easy_install_versioned kv.1)))
    | none => ([], e.2)
  pipStep.1 ++ eiStep.1 ++ eiStep.2.map Prod.fst ++ gui.map Prod.fst

/-! ## Uninstallation path enumeration (`wheel.py` lines 296-326) -/

/-- The body of the `uninstallation_paths` generator for one RECORD row:
yield the joined path and, for a `.py` path, the sibling `.pyc` path. -/
def uninstall_row_paths (location row : String) : List String :=
  let path := os_path_join location row
  if str_endsWith path ".py" then
    let dnfn := os_path_split path
    let base := str_dropRight dnfn.2 3
    [path, os_path_join dnfn.1 (base ++ ".pyc")]
  else [path]

/-- The `seen`-set loop of the `_unique` decorator. -/
def unique_go (seen : List String) : List String → List String
  | [] => []
  | x :: xs => if x ∈ seen then unique_go seen xs else x :: unique_go (x :: seen) xs

/-- `@_unique uninstallation_paths(dist)`: the deduplicated stream of paths. -/
def uninstallation_paths (location : String) (rows : List String) : List String :=
  unique_go [] (rows.flatMap (uninstall_row_paths location))

/-- Spec-side description of first-occurrence deduplication (§4.5): keep each
element's first occurrence, dropping every later duplicate.  Used only to be
compared with `uninstallation_paths`. -/
def dedup_spec : List String → List String
  | [] => []
  | x :: xs => x :: dedup_spec (xs.filter (fun y => y ≠ x))
termination_by l => l.length
decreasing_by
  exact Nat.lt_succ_of_le (List.length_filter_le _ _)

/-! ## The build orchestrator (`WheelBuilder`, `wheel.py` lines 373-433)

`call_subprocess` (from `pip.util`) is the external build toolchain: an
`Except` result models normal return versus a raised error (it raises on a
non-zero exit). -/

/-- A requirement, as far as the build loop inspects it. -/
structure Req where
  name : String
  is_wheel : Bool
  source_dir : String
deriving DecidableEq, Repr

/-- `WheelBuilder._build_one`: run the subprocess, `True` on normal return,
`False` when it raises (the bare `except:`). -/
def build_one (call_subprocess : Req → Except String Unit) (req : Req) : Bool :=
  match call_subprocess req with
  | .ok _ => true
  | .error _ => false

/-- The partitioning loop of `WheelBuilder.build`: skip requirements already
in wheel form, otherwise append to the success or failure list. -/
def build (call_subprocess : Req → Except String Unit) (reqset : List Req) :
    List Req × List Req :=
  reqset.foldl
    (fun acc req =>
      if req.is_wheel then acc
      else if build_one call_subprocess req then (acc.1 ++ [req], acc.2)
      else (acc.1, acc.2 ++ [req]))
    ([], [])

end PipWheel

namespace Strategy

/-! ## `strategy.py`: candidate-ordering strategies -/

/-- The two concrete strategies of `strategy.py`. -/
inductive AbstractStrategy where
  | defaultStrategy
  | earliestCompatible
deriving DecidableEq

/-- `DefaultStrategy.get_preferred_candidate` returns `len(candidates)`;
`EarliestCompatible.get_preferred_candidate` returns `0`. -/
def get_preferred_candidate {α β : Type} (s : AbstractStrategy)
    (resolution : Option α) (candidates : List α) (information : List β) : Nat :=
  match s, resolution, information with
  | .defaultStrategy, _, _ => candidates.length
  | .earliestCompatible, _, _ => 0

/-- `DefaultStrategy.sort_candidates` returns `reversed(candidates)`;
`EarliestCompatible.sort_candidates` returns `candidates` unchanged. -/
def sort_candidates {α : Type} (s : AbstractStrategy) (candidates : List α) : List α :=
  match s with
  | .defaultStrategy => candidates.reverse
  | .earliestCompatible => candidates

/-- `strategy_factory`: look `name` up in the one-entry table, defaulting to
`DefaultStrategy`. -/
def strategy_factory (name : String) : AbstractStrategy :=
  if name = "earliest-compatible" then .earliestCompatible else .defaultStrategy

end Strategy

/-! ## Theorems -/

/-- **C10** — `strategy_factory(name)` returns an `EarliestCompatible` strategy
exactly when `name` is `"earliest-compatible"` — whose `sort_candidates`
returns the candidate sequence unchanged and whose `get_preferred_candidate`
always returns `0` — and for every other name returns a `DefaultStrategy`,
whose `sort_candidates` reverses the candidates and whose
`get_preferred_candidate` returns the length of the candidate sequence. -/
theorem strategy_factory_spec {α β : Type} (name : String)
    (resolution : Option α) (candidates : List α) (information : List β) :
    (Strategy.strategy_factory name = .earliestCompatible ↔ name = "earliest-compatible")
    ∧ Strategy.strategy_factory name =
        (if name = "earliest-compatible" then .earliestCompatible else .defaultStrategy)
    ∧ Strategy.sort_candidates .earliestCompatible candidates = candidates
    ∧ Strategy.get_preferred_candidate .earliestCompatible resolution candidates information = 0
    ∧ Strategy.sort_candidates .defaultStrategy candidates = candidates.reverse
    ∧ Strategy.get_preferred_candidate .defaultStrategy resolution candidates information
        = candidates.length := by
  refine ⟨?_, rfl, rfl, rfl, rfl, rfl⟩
  unfold Strategy.strategy_factory
  constructor
  · intro h
    by_contra hne
    rw [if_neg hne] at h
    exact Strategy.AbstractStrategy.noConfusion h
  · intro h
    rw [if_pos h]

/-! ### Helper lemmas -/

theorem indexOf_le_of_getElem? {α : Type} [BEq α] [LawfulBEq α] {l : List α} {j : Nat}
    {a : α} (h : l[j]? = some a) : l.indexOf a ≤ j := by
  induction l generalizing j with
  | nil => simp at h
  | cons x xs ih =>
    rw [List.indexOf_cons]
    cases hx : x == a with
    | true => simp
    | false =>
      cases j with
      | zero =>
        simp only [List.getElem?_cons_zero, Option.some.injEq] at h
        subst h
        simp at hx
      | succ j =>
        simp only [List.getElem?_cons_succ] at h
        simpa [hx] using Nat.succ_le_succ (ih h)

theorem getElem?_indexOf_self {α : Type} [BEq α] [LawfulBEq α] {l : List α} {a : α}
    (h : a ∈ l) : l[l.indexOf a]? = some a := by
  induction l with
  | nil => simp at h
  | cons x xs ih =>
    rw [List.indexOf_cons]
    cases hx : x == a with
    | true =>
      simp only [cond_true, List.getElem?_cons_zero, Option.some.injEq]
      exact eq_of_beq hx
    | false =>
      have hmem : a ∈ xs := by
        rcases List.mem_cons.mp h with h1 | h1
        · subst h1
          simp at hx
        · exact h1
      simpa [hx] using ih hmem

/-- **C4** — For every parsed archive identity and every ordered list of
supported tag triples, `supported(tags)` returns true iff the set of the
archive's `(python, abi, platform)` tag triples intersects the list, and
`support_index_min(tags)` returns the minimum list index at which any of the
archive's triples occurs, or the no-match value (`None`) exactly when that
intersection is empty. -/
theorem wheel_support_spec (w : PipWheel.Wheel) (tags : List (String × String × String)) :
    (w.supported tags = true ↔ ∃ t ∈ w.file_tags, t ∈ tags)
    ∧ (w.support_index_min tags = none ↔ ¬ ∃ t ∈ w.file_tags, t ∈ tags)
    ∧ ∀ i, w.support_index_min tags = some i ↔
        ((∃ t ∈ w.file_tags, tags[i]? = some t) ∧
          ∀ j t, t ∈ w.file_tags → tags[j]? = some t → i ≤ j) := by
  refine ⟨?_, ?_, ?_⟩
  · unfold PipWheel.Wheel.supported
    simp only [List.any_eq_true, List.contains, List.elem_eq_mem, decide_eq_true_eq]
    exact ⟨fun ⟨t, h1, h2⟩ => ⟨t, h2, h1⟩, fun ⟨t, h1, h2⟩ => ⟨t, h2, h1⟩⟩
  · unfold PipWheel.Wheel.support_index_min
    rw [List.min?_eq_none_iff]
    simp [List.filter_eq_nil_iff]
  · intro i
    unfold PipWheel.Wheel.support_index_min
    rw [List.min?_eq_some_iff']
    simp only [List.mem_map, List.mem_filter, List.contains, List.elem_eq_mem,
      decide_eq_true_eq]
    constructor
    · rintro ⟨⟨c, ⟨hcf, hct⟩, hci⟩, hmin⟩
      refine ⟨⟨c, hcf, ?_⟩, ?_⟩
      · rw [← hci]
        exact getElem?_indexOf_self hct
      · intro j t htf hjt
        have htt : t ∈ tags := List.getElem?_mem hjt
        have h1 : i ≤ tags.indexOf t := hmin _ ⟨t, ⟨htf, htt⟩, rfl⟩
        exact Nat.le_trans h1 (indexOf_le_of_getElem? hjt)
    · rintro ⟨⟨t, htf, hti⟩, hmin⟩
      have htt : t ∈ tags := List.getElem?_mem hti
      have h1 : tags.indexOf t ≤ i := indexOf_le_of_getElem? hti
      have h2 : i ≤ tags.indexOf t := hmin _ t htf (getElem?_indexOf_self htt)
      refine ⟨⟨t, ⟨htf, htt⟩, Nat.le_antisymm h1 h2⟩, ?_⟩
      rintro b ⟨c, ⟨hcf, hct⟩, rfl⟩
      exact hmin _ c hcf (getElem?_indexOf_self hct)

theorem build_foldl (cs : PipWheel.Req → Except String Unit)
    (reqset : List PipWheel.Req) (a b : List PipWheel.Req) :
    (reqset.foldl
      (fun acc req =>
        if req.is_wheel then acc
        else if PipWheel.build_one cs req then (acc.1 ++ [req], acc.2)
        else (acc.1, acc.2 ++ [req]))
      (a, b))
    = (a ++ reqset.filter (fun r => !r.is_wheel && PipWheel.build_one cs r),
       b ++ reqset.filter (fun r => !r.is_wheel && !(PipWheel.build_one cs r))) := by
  induction reqset generalizing a b with
  | nil => simp
  | cons r rs ih =>
    simp only [List.foldl_cons, List.filter_cons]
    cases hw : r.is_wheel with
    | true => simp [hw, ih]
    | false =>
      cases hb : PipWheel.build_one cs r with
      | true => simp [hw, hb, ih]
      | false => simp [hw, hb, ih]

/-- **C5** — For every batch of source packages given to the build
orchestrator, the whole batch is processed: a package already in archive form
(`is_wheel`) lands in neither the succeeded nor the failed partition; every
other package whose build subprocess exits non-zero or raises (the `Except`
error of `call_subprocess`) is marked failed and the run continues, so each
non-archive package ends up in exactly one of the two partitions and no
subprocess failure propagates out of the batch (`build` is total and returns
the two lists). -/
theorem build_partition_spec (cs : PipWheel.Req → Except String Unit)
    (reqset : List PipWheel.Req) :
    PipWheel.build cs reqset
      = (reqset.filter (fun r => !r.is_wheel && PipWheel.build_one cs r),
         reqset.filter (fun r => !r.is_wheel && !(PipWheel.build_one cs r)))
    ∧ (∀ r ∈ reqset, r.is_wheel = true →
        r ∉ (PipWheel.build cs reqset).1 ∧ r ∉ (PipWheel.build cs reqset).2)
    ∧ (∀ r ∈ reqset, r.is_wheel = false →
        ((r ∈ (PipWheel.build cs reqset).1 ↔ PipWheel.build_one cs r = true)
          ∧ (r ∈ (PipWheel.build cs reqset).2 ↔ PipWheel.build_one cs r = false)))
    ∧ (∀ r ∈ reqset, r.is_wheel = false →
        ¬(r ∈ (PipWheel.build cs reqset).1 ∧ r ∈ (PipWheel.build cs reqset).2)) := by
  have heq : PipWheel.build cs reqset
      = (reqset.filter (fun r => !r.is_wheel && PipWheel.build_one cs r),
         reqset.filter (fun r => !r.is_wheel && !(PipWheel.build_one cs r))) := by
    unfold PipWheel.build
    simpa using build_foldl cs reqset [] []
  refine ⟨heq, ?_, ?_, ?_⟩
  · intro r _ hw
    rw [heq]
    simp [List.mem_filter, hw]
  · intro r hr hw
    rw [heq]
    simp [List.mem_filter, hw, hr]
  · intro r hr hw
    rw [heq]
    simp [List.mem_filter, hw, hr]

theorem dedup_spec_cons (x : String) (xs : List String) :
    PipWheel.dedup_spec (x :: xs)
      = x :: PipWheel.dedup_spec (xs.filter (fun y => y ≠ x)) := by
  rw [PipWheel.dedup_spec]

theorem unique_go_eq_dedup (l seen : List String) :
    PipWheel.unique_go seen l
      = PipWheel.dedup_spec (l.filter (fun x => decide (x ∉ seen))) := by
  induction l generalizing seen with
  | nil => simp [PipWheel.unique_go, PipWheel.dedup_spec]
  | cons x xs ih =>
    by_cases hx : x ∈ seen
    · rw [PipWheel.unique_go, if_pos hx, List.filter_cons]
      simp only [hx, not_true_eq_false, decide_False, Bool.false_eq_true, if_false]
      exact ih seen
    · rw [PipWheel.unique_go, if_neg hx, List.filter_cons]
      simp only [hx, not_false_eq_true, decide_True, if_true]
      rw [dedup_spec_cons, ih (x :: seen)]
      apply congrArg
      apply congrArg
      rw [List.filter_filter]
      apply List.filter_congr
      intro a _
      by_cases hax : a = x
      · subst hax
        simp
      · by_cases has : a ∈ seen <;> simp [hax, has]

theorem dedup_spec_mem (l : List String) (y : String) :
    y ∈ PipWheel.dedup_spec l ↔ y ∈ l := by
  induction l using PipWheel.dedup_spec.induct with
  | case1 => simp [PipWheel.dedup_spec]
  | case2 x xs ih =>
    rw [dedup_spec_cons]
    simp only [List.mem_cons, ih, List.mem_filter]
    by_cases hyx : y = x
    · simp [hyx]
    · simp [hyx]

theorem dedup_spec_sublist (l : List String) :
    (PipWheel.dedup_spec l).Sublist l := by
  induction l using PipWheel.dedup_spec.induct with
  | case1 =>
    rw [PipWheel.dedup_spec]
  | case2 x xs ih =>
    rw [dedup_spec_cons]
    exact List.Sublist.cons₂ x (ih.trans (List.filter_sublist xs))

theorem dedup_spec_nodup (l : List String) :
    (PipWheel.dedup_spec l).Nodup := by
  induction l using PipWheel.dedup_spec.induct with
  | case1 =>
    rw [PipWheel.dedup_spec]
    exact List.nodup_nil
  | case2 x xs ih =>
    rw [dedup_spec_cons]
    rw [List.nodup_cons]
    refine ⟨?_, ih⟩
    intro hx
    have := (dedup_spec_mem _ _).mp hx
    simp [List.mem_filter] at this

/-- **C7** — For every installed package manifest, uninstallation path
enumeration yields every manifest path joined to the install root and, after
each path ending in `.py`, the sibling `.pyc` path with the same directory
and base name (the per-row stream `uninstall_row_paths`); each distinct path
is yielded exactly once (deduplication by exact path equality, `Nodup`) in
order of first occurrence (the result equals the first-occurrence
deduplication of the raw stream and is a sublist of it), even when a path
occurs multiple times in the manifest. -/
theorem uninstallation_paths_spec (location : String) (rows : List String) :
    PipWheel.uninstallation_paths location rows
      = PipWheel.dedup_spec (rows.flatMap (PipWheel.uninstall_row_paths location))
    ∧ (PipWheel.uninstallation_paths location rows).Nodup
    ∧ (∀ p, p ∈ PipWheel.uninstallation_paths location rows ↔
        p ∈ rows.flatMap (PipWheel.uninstall_row_paths location))
    ∧ (PipWheel.uninstallation_paths location rows).Sublist
        (rows.flatMap (PipWheel.uninstall_row_paths location)) := by
  have heq : PipWheel.uninstallation_paths location rows
      = PipWheel.dedup_spec (rows.flatMap (PipWheel.uninstall_row_paths location)) := by
    unfold PipWheel.uninstallation_paths
    rw [unique_go_eq_dedup]
    congr 1
    simp
  refine ⟨heq, ?_, ?_, ?_⟩
  · rw [heq]
    exact dedup_spec_nodup _
  · intro p
    rw [heq]
    exact dedup_spec_mem _ _
  · rw [heq]
    exact dedup_spec_sublist _

/-- **C1** — code bug: for a file modified by the shebang fixer, the RECORD
rewrite is supposed to recompute hash and length, but `record_installed` puts
the raw `destfile` (an absolute path) into `changed` while the rewrite loop
compares the *lib-relative* translated path against `changed`; the membership
test can never succeed, so the archive-original hash and length are written
out unchanged (for every possible hashing oracle `hashOf`).  Concrete
failing installation: wheel dir `/w`, lib dir `/env/lib`, script moved to
`/env/bin/foo` and modified; its RECORD row keeps `sha256=OLD`, `10`. -/
theorem changed_hash_not_recomputed (hashOf : String → String × Nat) :
    (PipWheel.record_installed "/w" "/env/lib" ([], [])
        "/w/demo-1.0.data/scripts/foo" "/env/bin/foo" true).2 = ["/env/bin/foo"]
    ∧ PipWheel.rewritten_record
        (PipWheel.record_installed "/w" "/env/lib" ([], [])
          "/w/demo-1.0.data/scripts/foo" "/env/bin/foo" true).2
        hashOf
        (PipWheel.record_installed "/w" "/env/lib" ([], [])
          "/w/demo-1.0.data/scripts/foo" "/env/bin/foo" true).1
        []
        [("demo-1.0.data/scripts/foo", "sha256=OLD", "10")]
      = [("../bin/foo", "sha256=OLD", "10")]
    ∧ "../bin/foo" ∉
        (PipWheel.record_installed "/w" "/env/lib" ([], [])
          "/w/demo-1.0.data/scripts/foo" "/env/bin/foo" true).2 := by
  refine ⟨rfl, rfl, by decide⟩

theorem run_ops_writeRows_other (p q : String) (hq : q ≠ p)
    (rows : List PipWheel.RecordRow) (g : String → Option (List PipWheel.RecordRow)) :
    PipWheel.run_ops g (rows.map (PipWheel.FsOp.writeRow p)) q = g q := by
  induction rows generalizing g with
  | nil => rfl
  | cons r rows ih =>
    simp only [List.map_cons, PipWheel.run_ops, List.foldl_cons]
    refine (ih (PipWheel.applyOp g (PipWheel.FsOp.writeRow p r))).trans ?_
    simp [PipWheel.applyOp, hq]

theorem run_ops_writeRows_self (p : String) (rows : List PipWheel.RecordRow)
    (g : String → Option (List PipWheel.RecordRow)) (c : List PipWheel.RecordRow)
    (h : g p = some c) :
    PipWheel.run_ops g (rows.map (PipWheel.FsOp.writeRow p)) p = some (c ++ rows) := by
  induction rows generalizing g c with
  | nil => simpa [PipWheel.run_ops] using h
  | cons r rows ih =>
    simp only [List.map_cons, PipWheel.run_ops, List.foldl_cons]
    have hg : PipWheel.applyOp g (PipWheel.FsOp.writeRow p r) p = some (c ++ [r]) := by
      simp [PipWheel.applyOp, h]
    have := ih _ _ hg
    simp only [PipWheel.run_ops] at this
    rw [this]
    simp

theorem record_ne_temp (info_dir : String) :
    PipWheel.os_path_join info_dir "RECORD"
      ≠ PipWheel.os_path_join info_dir "RECORD.pip" := by
  unfold PipWheel.os_path_join
  have h1 : PipWheel.str_startsWith "RECORD" "/" = false := rfl
  have h2 : PipWheel.str_startsWith "RECORD.pip" "/" = false := rfl
  rw [h1, h2]
  simp only [Bool.false_eq_true, if_false]
  by_cases he : info_dir = ""
  · simp only [he, if_true]
    decide
  · simp only [he, if_false]
    by_cases hs : PipWheel.str_endsWith info_dir "/"
    · simp only [hs, if_true]
      intro h
      have := congrArg String.length h
      simp only [String.length_append, show ("RECORD" : String).length = 6 from rfl,
        show ("RECORD.pip" : String).length = 10 from rfl,
        show ("/" : String).length = 1 from rfl] at this
      omega
    · simp only [hs, Bool.false_eq_true, if_false]
      intro h
      have := congrArg String.length h
      simp only [String.length_append, show ("RECORD" : String).length = 6 from rfl,
        show ("RECORD.pip" : String).length = 10 from rfl,
        show ("/" : String).length = 1 from rfl] at this
      omega

/-- **C6** — The manifest rewrite writes the complete new RECORD to a
temporary sibling file (`RECORD.pip`) and only then replaces the original in
a single move: running any strict prefix of the operation sequence (i.e. an
error at any point before the final move, for instance while hashing or
writing rows) leaves the original manifest's content unchanged, and running
the whole sequence commits exactly the rewritten rows at `RECORD` (and
removes the temporary file). -/
theorem record_rewrite_atomic (info_dir : String)
    (fs : String → Option (List PipWheel.RecordRow))
    (newRows : List PipWheel.RecordRow) :
    (∀ k, k < (PipWheel.record_rewrite_ops info_dir newRows).length →
      PipWheel.run_ops fs ((PipWheel.record_rewrite_ops info_dir newRows).take k)
          (PipWheel.os_path_join info_dir "RECORD")
        = fs (PipWheel.os_path_join info_dir "RECORD"))
    ∧ PipWheel.run_ops fs (PipWheel.record_rewrite_ops info_dir newRows)
          (PipWheel.os_path_join info_dir "RECORD")
        = some newRows
    ∧ PipWheel.run_ops fs (PipWheel.record_rewrite_ops info_dir newRows)
          (PipWheel.os_path_join info_dir "RECORD.pip")
        = none := by
  set record := PipWheel.os_path_join info_dir "RECORD" with hrec
  set temp := PipWheel.os_path_join info_dir "RECORD.pip" with htemp
  have hne : record ≠ temp := record_ne_temp info_dir
  set fs1 := PipWheel.applyOp fs (PipWheel.FsOp.createFile temp) with hfs1
  have hfs1temp : fs1 temp = some [] := by
    simp [hfs1, PipWheel.applyOp]
  have hfs1rec : fs1 record = fs record := by
    simp [hfs1, PipWheel.applyOp, hne]
  have hops : PipWheel.record_rewrite_ops info_dir newRows
      = PipWheel.FsOp.createFile temp ::
          (newRows.map (PipWheel.FsOp.writeRow temp)
            ++ [PipWheel.FsOp.moveFile temp record]) := rfl
  have hwrites : PipWheel.run_ops fs1 (newRows.map (PipWheel.FsOp.writeRow temp)) temp
      = some newRows := by
    simpa using run_ops_writeRows_self temp newRows fs1 [] hfs1temp
  have hwrites_rec :
      PipWheel.run_ops fs1 (newRows.map (PipWheel.FsOp.writeRow temp)) record
        = fs record := by
    rw [run_ops_writeRows_other temp record hne newRows fs1]
    exact hfs1rec
  refine ⟨?_, ?_, ?_⟩
  · intro k hk
    cases k with
    | zero => rfl
    | succ j =>
      rw [hops] at hk ⊢
      simp at hk
      have hj : j ≤ newRows.length := by omega
      rw [List.take_succ_cons]
      rw [List.take_append_of_le_length (by simpa using hj)]
      have htakemap : (newRows.map (PipWheel.FsOp.writeRow temp)).take j
          = (newRows.take j).map (PipWheel.FsOp.writeRow temp) := by
        rw [List.map_take]
      rw [htakemap]
      show PipWheel.run_ops fs1 ((newRows.take j).map (PipWheel.FsOp.writeRow temp)) record
          = fs record
      rw [run_ops_writeRows_other temp record hne _ fs1]
      exact hfs1rec
  · rw [hops]
    show PipWheel.run_ops fs1
        (newRows.map (PipWheel.FsOp.writeRow temp) ++ [PipWheel.FsOp.moveFile temp record])
        record = some newRows
    rw [PipWheel.run_ops, List.foldl_append]
    show PipWheel.applyOp
        (PipWheel.run_ops fs1 (newRows.map (PipWheel.FsOp.writeRow temp)))
        (PipWheel.FsOp.moveFile temp record) record = some newRows
    simp [PipWheel.applyOp, hwrites]
  · rw [hops]
    show PipWheel.run_ops fs1
        (newRows.map (PipWheel.FsOp.writeRow temp) ++ [PipWheel.FsOp.moveFile temp record])
        temp = none
    rw [PipWheel.run_ops, List.foldl_append]
    show PipWheel.applyOp
        (PipWheel.run_ops fs1 (newRows.map (PipWheel.FsOp.writeRow temp)))
        (PipWheel.FsOp.moveFile temp record) temp = none
    simp [PipWheel.applyOp, hne, Ne.symm hne]

theorem record_rewrite_atomic_witness :
    PipWheel.run_ops
        (fun q => if q = "/i/RECORD" then some [("a", "h", "1")] else none)
        ((PipWheel.record_rewrite_ops "/i" [("x", "h2", "2")]).take 1)
        (PipWheel.os_path_join "/i" "RECORD")
      = (fun q => if q = "/i/RECORD" then some [("a", "h", "1")] else none)
          (PipWheel.os_path_join "/i" "RECORD")
    ∧ PipWheel.run_ops
        (fun q => if q = "/i/RECORD" then some [("a", "h", "1")] else none)
        (PipWheel.record_rewrite_ops "/i" [("x", "h2", "2")])
        (PipWheel.os_path_join "/i" "RECORD")
      = some [("x", "h2", "2")] :=
  ⟨(record_rewrite_atomic "/i"
      (fun q => if q = "/i/RECORD" then some [("a", "h", "1")] else none)
      [("x", "h2", "2")]).1 1 (by decide),
   (record_rewrite_atomic "/i"
      (fun q => if q = "/i/RECORD" then some [("a", "h", "1")] else none)
      [("x", "h2", "2")]).2.1⟩

theorem readBlocks_flatten (blocksize : Nat) (content : List Nat) (hb : blocksize ≠ 0) :
    (PipWheel.readBlocks blocksize content).flatten = content := by
  induction content using PipWheel.readBlocks.induct blocksize with
  | case1 c h =>
    rcases h with h | h
    · exact absurd h hb
    · subst h
      rw [PipWheel.readBlocks]
      simp
  | case2 c h ih =>
    rw [PipWheel.readBlocks, dif_neg h]
    rw [List.flatten_cons, ih]
    exact List.take_append_drop _ _

theorem foldl_add_length (l : List (List Nat)) (n : Nat) :
    l.foldl (fun n b => n + b.length) n = n + l.flatten.length := by
  induction l generalizing n with
  | nil => simp
  | cons x xs ih =>
    simp only [List.foldl_cons, List.flatten_cons, List.length_append, ih]
    omega

theorem string_append_toList (a : String) (l : List Char) :
    (String.mk l ++ a).toList = l ++ a.toList := by
  cases a
  rfl

theorem rehash_closed_form (new : String → List Nat → List Nat) (alg : String)
    (content : List Nat) :
    PipWheel.rehash new alg 1048576 content
      = ("sha256=" ++ PipWheel.urlsafe_b64encode_nopad (new alg content),
         content.length) := by
  simp only [PipWheel.rehash]
  have hflat : (PipWheel.readBlocks 1048576 content).flatten = content :=
    readBlocks_flatten _ _ (by norm_num)
  rw [hflat, foldl_add_length, hflat]
  simp

/-- **C8** — code bug: the content hasher streams the file in blocks (default
block size `1<<20`), returning the digest of the full byte stream and the
total byte count (0 for an empty file), URL-safe and padding-free encoded —
but the tag on the digest is the literal `'sha256='` for *every* algorithm
argument, not the algorithm's name: with `algo = "md5"` the first component
still begins `sha256=`, contradicting the claim that the pair carries that
algorithm's name. -/
theorem rehash_spec (new : String → List Nat → List Nat) (algo : String)
    (content : List Nat) :
    PipWheel.rehash new algo 1048576 content
      = ("sha256=" ++ PipWheel.urlsafe_b64encode_nopad (new algo content),
         content.length)
    ∧ (PipWheel.rehash new "md5" 1048576 content).1.toList.take 7
        = ['s', 'h', 'a', '2', '5', '6', '=']
    ∧ (PipWheel.rehash new "md5" 1048576 content).1.toList.take 4
        ≠ ['m', 'd', '5', '=']
    ∧ (PipWheel.rehash new algo 1048576 []).2 = 0 := by
  have htag : ∀ (alg : String),
      (PipWheel.rehash new alg 1048576 content).1.toList
        = ['s', 'h', 'a', '2', '5', '6', '=']
            ++ (PipWheel.urlsafe_b64encode_nopad (new alg content)).toList := by
    intro alg
    rw [rehash_closed_form new alg content]
    show (("sha256=" : String) ++ _).toList = _
    rw [show ("sha256=" : String) = String.mk ['s', 'h', 'a', '2', '5', '6', '='] from rfl]
    rw [string_append_toList]
  refine ⟨rehash_closed_form new algo content, ?_, ?_, ?_⟩
  · rw [htag "md5"]
    rfl
  · rw [htag "md5"]
    intro hcontra
    have h4 : (['s', 'h', 'a', '2', '5', '6', '=']
        ++ (PipWheel.urlsafe_b64encode_nopad (new "md5" content)).toList).take 4
        = ['s', 'h', 'a', '2'] := rfl
    rw [h4] at hcontra
    simp at hcontra
  · rw [rehash_closed_form new algo []]
    rfl

theorem clobber_go_no_match (dest pn : String) (subdirs : List String)
    (info : List String)
    (h : subdirs.filter
        (fun s => !(PipWheel.str_endsWith (PipWheel.os_path_join dest s) ".data")
          && PipWheel.dist_info_cond pn s) = []) :
    ∀ data : List String,
      PipWheel.clobber_top_go dest pn info data subdirs
        = .ok (info, data ++ subdirs.filter
            (fun s => PipWheel.str_endsWith (PipWheel.os_path_join dest s) ".data")) := by
  induction subdirs with
  | nil =>
    intro data
    simp [PipWheel.clobber_top_go]
  | cons s rest ih =>
    intro data
    rw [List.filter_cons] at h
    by_cases hd : PipWheel.str_endsWith (PipWheel.os_path_join dest s) ".data"
    · simp only [hd, Bool.not_true, Bool.false_and, Bool.false_eq_true, if_false] at h
      simp only [PipWheel.clobber_top_go, hd, if_true]
      rw [ih h (data ++ [s]), List.filter_cons]
      simp [hd]
    · cases hdist : PipWheel.dist_info_cond pn s with
      | false =>
        simp only [hd, hdist, Bool.not_false, Bool.and_false, Bool.false_eq_true,
          if_false] at h
        simp only [PipWheel.clobber_top_go, hd, hdist, Bool.false_eq_true, if_false]
        rw [ih h data, List.filter_cons]
        simp [hd]
      | true =>
        exfalso
        simp [hd, hdist] at h

theorem clobber_go_err (dest pn : String) (subdirs : List String)
    (info : List String) (hinfo : info ≠ [])
    (h : subdirs.filter
        (fun s => !(PipWheel.str_endsWith (PipWheel.os_path_join dest s) ".data")
          && PipWheel.dist_info_cond pn s) ≠ []) :
    ∀ data : List String,
      PipWheel.clobber_top_go dest pn info data subdirs
        = .error "Multiple .dist-info directories" := by
  induction subdirs with
  | nil =>
    exact absurd rfl h
  | cons s rest ih =>
    intro data
    rw [List.filter_cons] at h
    by_cases hd : PipWheel.str_endsWith (PipWheel.os_path_join dest s) ".data"
    · simp only [hd, Bool.not_true, Bool.false_and, Bool.false_eq_true, if_false] at h
      simp only [PipWheel.clobber_top_go, hd, if_true]
      exact ih h (data ++ [s])
    · cases hdist : PipWheel.dist_info_cond pn s with
      | false =>
        simp only [hd, hdist, Bool.not_false, Bool.and_false, Bool.false_eq_true,
          if_false] at h
        simp only [PipWheel.clobber_top_go, hd, hdist, Bool.false_eq_true, if_false]
        exact ih h data
      | true =>
        simp only [PipWheel.clobber_top_go, hd, hdist, Bool.false_eq_true, if_false,
          if_true]
        rw [if_neg hinfo]

theorem clobber_go_main (dest pn : String) (subdirs : List String) :
    ∀ data : List String,
      (((subdirs.filter
          (fun s => !(PipWheel.str_endsWith (PipWheel.os_path_join dest s) ".data")
            && PipWheel.dist_info_cond pn s)).length ≤ 1 →
        PipWheel.clobber_top_go dest pn [] data subdirs
          = .ok ((subdirs.filter
                (fun s => !(PipWheel.str_endsWith (PipWheel.os_path_join dest s) ".data")
                  && PipWheel.dist_info_cond pn s)).map (PipWheel.os_path_join dest),
              data ++ subdirs.filter
                (fun s => PipWheel.str_endsWith (PipWheel.os_path_join dest s) ".data"))))
      ∧ (2 ≤ (subdirs.filter
          (fun s => !(PipWheel.str_endsWith (PipWheel.os_path_join dest s) ".data")
            && PipWheel.dist_info_cond pn s)).length →
        PipWheel.clobber_top_go dest pn [] data subdirs
          = .error "Multiple .dist-info directories") := by
  induction subdirs with
  | nil =>
    intro data
    constructor
    · intro _
      simp [PipWheel.clobber_top_go]
    · intro h2
      simp at h2
  | cons s rest ih =>
    intro data
    by_cases hd : PipWheel.str_endsWith (PipWheel.os_path_join dest s) ".data"
    · have hfm : (s :: rest).filter
          (fun s => !(PipWheel.str_endsWith (PipWheel.os_path_join dest s) ".data")
            && PipWheel.dist_info_cond pn s)
          = rest.filter
              (fun s => !(PipWheel.str_endsWith (PipWheel.os_path_join dest s) ".data")
                && PipWheel.dist_info_cond pn s) := by
        rw [List.filter_cons]
        simp [hd]
      have hfd : (s :: rest).filter
          (fun s => PipWheel.str_endsWith (PipWheel.os_path_join dest s) ".data")
          = s :: rest.filter
              (fun s => PipWheel.str_endsWith (PipWheel.os_path_join dest s) ".data") := by
        rw [List.filter_cons]
        simp [hd]
      rw [hfm, hfd]
      constructor
      · intro h1
        simp only [PipWheel.clobber_top_go, hd, if_true]
        rw [(ih (data ++ [s])).1 h1]
        simp
      · intro h2
        simp only [PipWheel.clobber_top_go, hd, if_true]
        exact (ih (data ++ [s])).2 h2
    · cases hdist : PipWheel.dist_info_cond pn s with
      | false =>
        have hfm : (s :: rest).filter
            (fun s => !(PipWheel.str_endsWith (PipWheel.os_path_join dest s) ".data")
              && PipWheel.dist_info_cond pn s)
            = rest.filter
                (fun s => !(PipWheel.str_endsWith (PipWheel.os_path_join dest s) ".data")
                  && PipWheel.dist_info_cond pn s) := by
          rw [List.filter_cons]
          simp [hdist]
        have hfd : (s :: rest).filter
            (fun s => PipWheel.str_endsWith (PipWheel.os_path_join dest s) ".data")
            = rest.filter
                (fun s => PipWheel.str_endsWith (PipWheel.os_path_join dest s) ".data") := by
          rw [List.filter_cons]
          simp [hd]
        rw [hfm, hfd]
        constructor
        · intro h1
          simp only [PipWheel.clobber_top_go, hd, hdist, Bool.false_eq_true, if_false]
          exact (ih data).1 h1
        · intro h2
          simp only [PipWheel.clobber_top_go, hd, hdist, Bool.false_eq_true, if_false]
          exact (ih data).2 h2
      | true =>
        have hfm : (s :: rest).filter
            (fun s => !(PipWheel.str_endsWith (PipWheel.os_path_join dest s) ".data")
              && PipWheel.dist_info_cond pn s)
            = s :: rest.filter
                (fun s => !(PipWheel.str_endsWith (PipWheel.os_path_join dest s) ".data")
                  && PipWheel.dist_info_cond pn s) := by
          rw [List.filter_cons]
          simp [hd, hdist]
        have hfd : (s :: rest).filter
            (fun s => PipWheel.str_endsWith (PipWheel.os_path_join dest s) ".data")
            = rest.filter
                (fun s => PipWheel.str_endsWith (PipWheel.os_path_join dest s) ".data") := by
          rw [List.filter_cons]
          simp [hd]
        rw [hfm, hfd]
        constructor
        · intro h1
          rw [List.length_cons] at h1
          have h1' : rest.filter
              (fun s => !(PipWheel.str_endsWith (PipWheel.os_path_join dest s) ".data")
                && PipWheel.dist_info_cond pn s) = [] :=
            List.eq_nil_of_length_eq_zero (by omega)
          simp only [PipWheel.clobber_top_go, hd, hdist, Bool.false_eq_true, if_false,
            if_true, List.nil_append]
          rw [clobber_go_no_match dest pn rest [PipWheel.os_path_join dest s] h1' data]
          simp [h1']
        · intro h2
          simp only [List.length_cons] at h2
          have hne : rest.filter
              (fun s => !(PipWheel.str_endsWith (PipWheel.os_path_join dest s) ".data")
                && PipWheel.dist_info_cond pn s) ≠ [] := by
            intro hnil
            rw [hnil] at h2
            simp at h2
          simp only [PipWheel.clobber_top_go, hd, hdist, Bool.false_eq_true, if_false,
            if_true, List.nil_append]
          exact clobber_go_err dest pn rest [PipWheel.os_path_join dest s]
            (by simp) hne data

/-- **C9** — During relocation, encountering a second top-level directory
ending in `.dist-info` whose lowered name starts with the package's
normalized name aborts with the ambiguous-metadata assertion (`Multiple
.dist-info directories`); under the precondition that at most one such
directory exists the assertion never fires, the single matching directory
(when present) is recorded as the metadata location, and the `.data`
directories are collected. -/
theorem clobber_dist_info_spec (dest pn : String) (subdirs : List String) :
    (((subdirs.filter
        (fun s => !(PipWheel.str_endsWith (PipWheel.os_path_join dest s) ".data")
          && PipWheel.dist_info_cond pn s)).length ≤ 1 →
      PipWheel.clobber_top dest pn subdirs
        = .ok ((subdirs.filter
              (fun s => !(PipWheel.str_endsWith (PipWheel.os_path_join dest s) ".data")
                && PipWheel.dist_info_cond pn s)).map (PipWheel.os_path_join dest),
            subdirs.filter
              (fun s => PipWheel.str_endsWith (PipWheel.os_path_join dest s) ".data"))))
    ∧ (2 ≤ (subdirs.filter
        (fun s => !(PipWheel.str_endsWith (PipWheel.os_path_join dest s) ".data")
          && PipWheel.dist_info_cond pn s)).length →
      PipWheel.clobber_top dest pn subdirs
        = .error "Multiple .dist-info directories") := by
  have h := clobber_go_main dest pn subdirs []
  unfold PipWheel.clobber_top
  constructor
  · intro h1
    rw [(h.1) h1]
    simp
  · exact h.2

theorem clobber_dist_info_witness :
    PipWheel.clobber_top "/lib" "demo" ["demo-1.0.dist-info", "demo-1.0.data", "pkg"]
      = .ok (["/lib/demo-1.0.dist-info"], ["demo-1.0.data"]) := by
  have h := (clobber_dist_info_spec "/lib" "demo"
    ["demo-1.0.dist-info", "demo-1.0.data", "pkg"]).1 (by decide)
  rw [h]
  rfl

theorem lookup_filter_of_true (k : String) (l : List (String × String))
    (q : String × String → Bool) (hq : ∀ v, q (k, v) = true) :
    (l.filter q).lookup k = l.lookup k := by
  induction l with
  | nil => rfl
  | cons kv rest ih =>
    obtain ⟨a, b⟩ := kv
    by_cases hak : k = a
    · subst hak
      rw [List.filter_cons]
      simp only [hq b, if_true]
      simp [List.lookup]
    · rw [List.filter_cons]
      have hbeq : (k == a) = false := beq_eq_false_iff_ne.mpr hak
      cases hq2 : q (a, b) with
      | true =>
        simp only [if_true]
        simp [List.lookup, hbeq, ih]
      | false =>
        simp only [Bool.false_eq_true, if_false]
        rw [ih]
        simp [List.lookup, hbeq]

theorem filter_eraseP_of_false (k : String) (l : List (String × String))
    (q : String × String → Bool) (hq : ∀ v, q (k, v) = false) :
    (l.eraseP (fun kv => kv.1 == k)).filter q = l.filter q := by
  induction l with
  | nil => rfl
  | cons kv rest ih =>
    obtain ⟨a, b⟩ := kv
    by_cases hak : a = k
    · subst hak
      rw [List.eraseP_cons_of_pos (by simp)]
      rw [List.filter_cons]
      simp only [hq b, Bool.false_eq_true, if_false]
    · rw [List.eraseP_cons_of_neg (by simp [hak])]
      rw [List.filter_cons, List.filter_cons]
      cases hq2 : q (a, b) with
      | true => simp only [if_true, ih, List.cons.injEq, true_and]
      | false => simp only [Bool.false_eq_true, if_false, ih]

/-- **C3 (amended)** — When an installed package declares both reserved
console entry-point names, `pip` receives three launchers (bare,
major-version `pip{major}`, major.minor `pip{major.minor}`) while
`easy_install` receives **two** launchers (bare and the major.minor alias
`easy_install-{major.minor}` — the source generates no major-only alias for
it); all other version-qualified `pip`/`easy_install` console entries are
deleted before general generation, and every remaining console or gui entry
point yields exactly one launcher. -/
theorem console_entry_points_reserved (console gui : List (String × String))
    (ver1 ver3 : String) (tp te : String)
    (hp : console.lookup "pip" = some tp)
    (he : console.lookup "easy_install" = some te) :
    PipWheel.console_entry_points console gui ver1 ver3
      = ["pip", "pip" ++ ver1, "pip" ++ ver3, "easy_install", "easy_install-" ++ ver3]
        ++ (console.filter (fun kv => !(PipWheel.pip_versioned kv.1)
              && !(PipWheel.easy_install_versioned kv.1))).map Prod.fst
        ++ gui.map Prod.fst := by
  have hpop1 : PipWheel.dict_pop console "pip"
      = (some tp, console.eraseP (fun kv => kv.1 == "pip")) := by
    unfold PipWheel.dict_pop
    rw [hp]
  have hc1 : (console.eraseP (fun kv => kv.1 == "pip")).filter
        (fun kv => !(PipWheel.pip_versioned kv.1))
      = console.filter (fun kv => !(PipWheel.pip_versioned kv.1)) :=
    filter_eraseP_of_false "pip" console _ (fun v => rfl)
  have hlk2 : (console.filter (fun kv => !(PipWheel.pip_versioned kv.1))).lookup
        "easy_install" = some te := by
    rw [lookup_filter_of_true "easy_install" console _ (fun v => rfl)]
    exact he
  have hpop2 : PipWheel.dict_pop
        (console.filter (fun kv => !(PipWheel.pip_versioned kv.1))) "easy_install"
      = (some te,
         (console.filter (fun kv => !(PipWheel.pip_versioned kv.1))).eraseP
           (fun kv => kv.1 == "easy_install")) := by
    unfold PipWheel.dict_pop
    rw [hlk2]
  have hc2 : ((console.filter (fun kv => !(PipWheel.pip_versioned kv.1))).eraseP
        (fun kv => kv.1 == "easy_install")).filter
        (fun kv => !(PipWheel.easy_install_versioned kv.1))
      = console.filter (fun kv => !(PipWheel.pip_versioned kv.1)
          && !(PipWheel.easy_install_versioned kv.1)) := by
    rw [filter_eraseP_of_false "easy_install" _ _ (fun v => rfl)]
    rw [List.filter_filter]
    apply List.filter_congr
    intro a _
    rw [Bool.and_comm]
  simp only [PipWheel.console_entry_points, hpop1, hc1, hpop2, hc2]
  simp

theorem console_entry_points_witness :
    PipWheel.console_entry_points [("pip", "a"), ("easy_install", "b"), ("doc", "c")]
        [("g", "d")] "3" "3.4"
      = ["pip", "pip3", "pip3.4", "easy_install", "easy_install-3.4", "doc", "g"] := by
  rw [console_entry_points_reserved
    [("pip", "a"), ("easy_install", "b"), ("doc", "c")] [("g", "d")] "3" "3.4"
    "a" "b" rfl rfl]
  rfl

/-- **C3 counterexample** — with both reserved names declared, the generated
launcher list is `["pip", "pip2", "pip2.7", "easy_install",
"easy_install-2.7"]`: only **two** of the launchers belong to `easy_install`,
refuting "three launchers per reserved name" (there is no major-version-only
`easy_install` alias). -/
theorem console_entry_points_cex :
    PipWheel.console_entry_points [("pip", "pm"), ("easy_install", "em")] [] "2" "2.7"
      = ["pip", "pip2", "pip2.7", "easy_install", "easy_install-2.7"]
    ∧ ((PipWheel.console_entry_points [("pip", "pm"), ("easy_install", "em")] []
          "2" "2.7").filter
        (fun s => PipWheel.str_startsWith s "easy_install")).length = 2 :=
  ⟨rfl, rfl⟩

/-! ### Backtracking-search lemmas for the filename matcher -/

theorem tryPrefixes_eq_some_at {α : Type} (k : PipWheel.Str → PipWheel.Str → Option α)
    (p suf : PipWheel.Str) (a : α) (hp : p ≠ [])
    (hshort : ∀ n, 0 < n → n < p.length → k (p.take n) (p.drop n ++ suf) = none)
    (hk : k p suf = some a) :
    PipWheel.tryPrefixes (p ++ suf) k = some a := by
  induction p generalizing k with
  | nil => exact absurd rfl hp
  | cons c p' ih =>
    rw [List.cons_append, PipWheel.tryPrefixes]
    by_cases hp' : p' = []
    · subst hp'
      simp only [List.nil_append]
      rw [hk]
      rfl
    · have h1 : k [c] (p' ++ suf) = none := by
        have hlen : 1 < (c :: p').length := by
          cases p' with
          | nil => exact absurd rfl hp'
          | cons d p'' => simp
        have := hshort 1 (by omega) hlen
        simpa using this
      rw [h1]
      simp only [Option.none_orElse]
      apply ih (k := fun q s => k (c :: q) s)
      · exact hp'
      · intro n hn0 hnlen
        have := hshort (n + 1) (by omega) (by simp; omega)
        simpa [List.take_succ_cons, List.drop_succ_cons] using this
      · exact hk

theorem tryPrefixes_eq_none {α : Type} (s : PipWheel.Str)
    (k : PipWheel.Str → PipWheel.Str → Option α)
    (h : ∀ p suf, p ≠ [] → p ++ suf = s → k p suf = none) :
    PipWheel.tryPrefixes s k = none := by
  induction s generalizing k with
  | nil => rfl
  | cons c rest ih =>
    rw [PipWheel.tryPrefixes]
    rw [h [c] rest (by simp) rfl]
    simp only [Option.none_orElse]
    apply ih
    intro p suf hp happ
    exact h (c :: p) suf (by simp) (by rw [← happ]; rfl)

theorem tryPrefixes_some_split {α : Type} (s : PipWheel.Str)
    (k : PipWheel.Str → PipWheel.Str → Option α) (a : α)
    (h : PipWheel.tryPrefixes s k = some a) :
    ∃ p suf, p ≠ [] ∧ s = p ++ suf ∧ k p suf = some a := by
  induction s generalizing k with
  | nil => simp [PipWheel.tryPrefixes] at h
  | cons c rest ih =>
    rw [PipWheel.tryPrefixes] at h
    cases hc : k [c] rest with
    | some b =>
      rw [hc] at h
      simp only [Option.some_orElse, Option.some.injEq] at h
      exact ⟨[c], rest, by simp, rfl, by rw [hc, h]⟩
    | none =>
      rw [hc] at h
      simp only [Option.none_orElse] at h
      obtain ⟨p, suf, hp, happ, hk⟩ := ih _ h
      exact ⟨c :: p, suf, by simp, by rw [happ]; rfl, hk⟩

theorem tryPrefixes0_eq_some_at {α : Type} (k : PipWheel.Str → PipWheel.Str → Option α)
    (p suf : PipWheel.Str) (a : α)
    (hshort : ∀ n, n < p.length → k (p.take n) (p.drop n ++ suf) = none)
    (hk : k p suf = some a) :
    PipWheel.tryPrefixes0 (p ++ suf) k = some a := by
  unfold PipWheel.tryPrefixes0
  by_cases hp : p = []
  · subst hp
    simp only [List.nil_append]
    rw [hk]
    rfl
  · have h0 : k [] (p ++ suf) = none := by
      have hlen : 0 < p.length := List.length_pos.mpr hp
      have := hshort 0 hlen
      simpa using this
    rw [h0]
    simp only [Option.none_orElse]
    exact tryPrefixes_eq_some_at k p suf a hp
      (fun n hn0 hnl => hshort n hnl) hk

theorem tryPrefixes0_eq_none {α : Type} (s : PipWheel.Str)
    (k : PipWheel.Str → PipWheel.Str → Option α)
    (h : ∀ p suf, p ++ suf = s → k p suf = none) :
    PipWheel.tryPrefixes0 s k = none := by
  unfold PipWheel.tryPrefixes0
  rw [h [] s rfl]
  simp only [Option.none_orElse]
  exact tryPrefixes_eq_none s k (fun p suf _ happ => h p suf happ)

theorem whl_ne_distinfo (t : PipWheel.Str) :
    t ++ PipWheel.whlChars ≠ PipWheel.distInfoChars := by
  intro h
  have := congrArg List.reverse h
  rw [List.reverse_append] at this
  simp [PipWheel.whlChars, PipWheel.distInfoChars] at this

theorem matchPats_cons_none (x : Char) (r : PipWheel.Str) (hx : x ≠ '-') :
    PipWheel.matchPats (x :: r) = none := by
  simp only [PipWheel.matchPats]
  rw [if_neg hx]

theorem pyCont_cons_none (p : PipWheel.Str) (x : Char) (r : PipWheel.Str) (hx : x ≠ '-') :
    PipWheel.pyCont p (x :: r) = none := by
  simp only [PipWheel.pyCont]
  rw [if_neg hx]

theorem abCont_cons_none (p q : PipWheel.Str) (x : Char) (r : PipWheel.Str) (hx : x ≠ '-') :
    PipWheel.abCont p q (x :: r) = none := by
  simp only [PipWheel.abCont]
  rw [if_neg hx]

theorem buildGroupBranch_cons_none (x : Char) (r : PipWheel.Str) (hx : x ≠ '-') :
    PipWheel.buildGroupBranch (x :: r) = none := by
  cases r with
  | nil => rfl
  | cons d r1 =>
    simp only [PipWheel.buildGroupBranch]
    rw [if_neg (fun hc => hx hc.1)]

theorem verGroupBranch_cons_none (nm : PipWheel.Str) (x : Char) (r : PipWheel.Str)
    (hx : x ≠ '-') : PipWheel.verGroupBranch nm (x :: r) = none := by
  cases r with
  | nil => rfl
  | cons d r1 =>
    simp only [PipWheel.verGroupBranch]
    rw [if_neg (fun hc => hx hc.1)]

theorem matchWhl_cons_none (x : Char) (r : PipWheel.Str) (hx : x ≠ '-') :
    PipWheel.matchWhl (x :: r) = none := by
  unfold PipWheel.matchWhl
  rw [buildGroupBranch_cons_none x r hx, matchPats_cons_none x r hx]
  rfl

theorem matchAfterNamever_cons_none (x : Char) (r : PipWheel.Str) (hx : x ≠ '-')
    (hdi : x :: r ≠ PipWheel.distInfoChars) :
    PipWheel.matchAfterNamever (x :: r) = none := by
  unfold PipWheel.matchAfterNamever
  rw [matchWhl_cons_none x r hx]
  simp only [Option.map_none', Option.none_orElse]
  rw [if_neg hdi]

theorem nameStep_cons_none (nm : PipWheel.Str) (x : Char) (r : PipWheel.Str)
    (hx : x ≠ '-') (hdi : x :: r ≠ PipWheel.distInfoChars) :
    PipWheel.nameStep nm (x :: r) = none := by
  unfold PipWheel.nameStep
  rw [verGroupBranch_cons_none nm x r hx, matchAfterNamever_cons_none x r hx hdi]
  rfl

theorem matchPats_shape (r : PipWheel.Str) (py ab pl : PipWheel.Str)
    (h : PipWheel.matchPats r = some (py, ab, pl)) :
    r = '-' :: (py ++ '-' :: (ab ++ '-' :: (pl ++ PipWheel.whlChars))) := by
  cases r with
  | nil => simp [PipWheel.matchPats] at h
  | cons c r1 =>
    simp only [PipWheel.matchPats] at h
    by_cases hc : c = '-'
    · subst hc
      rw [if_pos rfl] at h
      obtain ⟨p1, s1, hp1, happ1, hk1⟩ := tryPrefixes_some_split r1 _ _ h
      cases s1 with
      | nil => simp [PipWheel.pyCont] at hk1
      | cons c2 r3 =>
        simp only [PipWheel.pyCont] at hk1
        by_cases hc2 : c2 = '-'
        · subst hc2
          rw [if_pos rfl] at hk1
          obtain ⟨p2, s2, hp2, happ2, hk2⟩ := tryPrefixes_some_split r3 _ _ hk1
          cases s2 with
          | nil => simp [PipWheel.abCont] at hk2
          | cons c3 r5 =>
            simp only [PipWheel.abCont] at hk2
            by_cases hc3 : c3 = '-'
            · subst hc3
              rw [if_pos rfl] at hk2
              obtain ⟨p3, s3, hp3, happ3, hk3⟩ := tryPrefixes_some_split r5 _ _ hk2
              simp only [PipWheel.plCont] at hk3
              by_cases hs3 : s3 = PipWheel.whlChars
              · rw [if_pos hs3] at hk3
                simp only [Option.some.injEq, Prod.mk.injEq] at hk3
                obtain ⟨e1, e2, e3⟩ := hk3
                subst e1
                subst e2
                subst e3
                subst hs3
                rw [happ1, happ2, happ3]
              · rw [if_neg hs3] at hk3
                exact absurd hk3 (by simp)
            · rw [if_neg hc3] at hk2
              exact absurd hk2 (by simp)
        · rw [if_neg hc2] at hk1
          exact absurd hk1 (by simp)
    · rw [if_neg hc] at h
      exact absurd h (by simp)

theorem matchPats_none_of_count (r : PipWheel.Str) (h : r.count '-' < 3) :
    PipWheel.matchPats r = none := by
  cases hm : PipWheel.matchPats r with
  | none => rfl
  | some t =>
    obtain ⟨py, ab, pl⟩ := t
    have hshape := matchPats_shape r py ab pl hm
    rw [hshape] at h
    simp only [List.count_cons, List.count_append] at h
    simp [PipWheel.whlChars] at h
    omega

theorem drop_head_mem {p : PipWheel.Str} {n : Nat} (hn : n < p.length) :
    ∃ x xs, p.drop n = x :: xs ∧ x ∈ p := by
  have hne : p.drop n ≠ [] := by
    intro h
    have := congrArg List.length h
    rw [List.length_drop] at this
    simp at this
    omega
  obtain ⟨x, xs, hx⟩ := List.exists_cons_of_ne_nil hne
  refine ⟨x, xs, hx, List.drop_subset n p ?_⟩
  rw [hx]
  exact List.mem_cons_self x xs

theorem cons_append_whl (c : Char) (u t : PipWheel.Str) :
    c :: (u ++ (t ++ PipWheel.whlChars)) = (c :: (u ++ t)) ++ PipWheel.whlChars := by
  simp [List.append_assoc]

theorem cons_app_whl_ne_distinfo (x : Char) (xs t : PipWheel.Str) :
    x :: (xs ++ (t ++ PipWheel.whlChars)) ≠ PipWheel.distInfoChars := by
  rw [cons_append_whl]
  exact whl_ne_distinfo _

theorem matchPats_ok (py ab pl : PipWheel.Str)
    (hpy : py ≠ []) (hpyd : '-' ∉ py)
    (hab : ab ≠ []) (habd : '-' ∉ ab)
    (hpl : pl ≠ []) (hpld : '-' ∉ pl) :
    PipWheel.matchPats
        ('-' :: (py ++ '-' :: (ab ++ '-' :: (pl ++ PipWheel.whlChars))))
      = some (py, ab, pl) := by
  simp only [PipWheel.matchPats]
  rw [if_pos trivial]
  apply tryPrefixes_eq_some_at PipWheel.pyCont py
    ('-' :: (ab ++ '-' :: (pl ++ PipWheel.whlChars))) _ hpy
  · intro n hn0 hnlen
    obtain ⟨x, xs, hx, hxm⟩ := drop_head_mem hnlen
    rw [hx, List.cons_append]
    exact pyCont_cons_none _ x _ (fun he => hpyd (he ▸ hxm))
  · simp only [PipWheel.pyCont]
    rw [if_pos trivial]
    apply tryPrefixes_eq_some_at (PipWheel.abCont py) ab
      ('-' :: (pl ++ PipWheel.whlChars)) _ hab
    · intro n hn0 hnlen
      obtain ⟨x, xs, hx, hxm⟩ := drop_head_mem hnlen
      rw [hx, List.cons_append]
      exact abCont_cons_none _ _ x _ (fun he => habd (he ▸ hxm))
    · simp only [PipWheel.abCont]
      rw [if_pos trivial]
      apply tryPrefixes_eq_some_at (PipWheel.plCont py ab) pl PipWheel.whlChars _ hpl
      · intro n hn0 hnlen
        simp only [PipWheel.plCont]
        rw [if_neg]
        intro he
        have := congrArg List.length he
        rw [List.length_append, List.length_drop] at this
        omega
      · simp only [PipWheel.plCont]
        rw [if_pos trivial]

theorem buildGroupBranch_none_of_count (r : PipWheel.Str) (h : r.count '-' < 4) :
    PipWheel.buildGroupBranch r = none := by
  rcases r with _ | ⟨c, _ | ⟨d, r1⟩⟩
  · rfl
  · rfl
  · simp only [PipWheel.buildGroupBranch]
    by_cases hcd : c = '-' ∧ d.isDigit = true
    · rw [if_pos hcd]
      apply tryPrefixes0_eq_none
      intro b r2 happ
      unfold PipWheel.buildCont
      rw [matchPats_none_of_count r2 ?hcnt]
      · rfl
      case hcnt =>
        have hd : d ≠ '-' := by
          intro he
          rw [he] at hcd
          exact absurd hcd.2 (by decide)
        have h1 : (c :: d :: r1).count '-' = r1.count '-' + 1 := by
          rw [hcd.1]
          simp [List.count_cons, hd]
        have h2 : r2.count '-' ≤ r1.count '-' := by
          rw [← happ, List.count_append]
          omega
        omega
    · rw [if_neg hcd]

theorem count_tail_nobuild (py ab pl : PipWheel.Str)
    (hpyd : '-' ∉ py) (habd : '-' ∉ ab) (hpld : '-' ∉ pl) :
    ('-' :: (py ++ '-' :: (ab ++ '-' :: (pl ++ PipWheel.whlChars)))).count '-' = 3 := by
  simp only [List.count_cons, List.count_append]
  rw [List.count_eq_zero.mpr hpyd, List.count_eq_zero.mpr habd,
    List.count_eq_zero.mpr hpld]
  rw [show PipWheel.whlChars.count '-' = 0 from rfl]
  simp

theorem matchWhl_nobuild (py ab pl : PipWheel.Str)
    (hpy : py ≠ []) (hpyd : '-' ∉ py)
    (hab : ab ≠ []) (habd : '-' ∉ ab)
    (hpl : pl ≠ []) (hpld : '-' ∉ pl) :
    PipWheel.matchWhl
        ('-' :: (py ++ '-' :: (ab ++ '-' :: (pl ++ PipWheel.whlChars))))
      = some (none, py, ab, pl) := by
  unfold PipWheel.matchWhl
  rw [buildGroupBranch_none_of_count _
    (by rw [count_tail_nobuild py ab pl hpyd habd hpld]; omega)]
  rw [matchPats_ok py ab pl hpy hpyd hab habd hpl hpld]
  rfl

theorem matchAfterNamever_nobuild (py ab pl : PipWheel.Str)
    (hpy : py ≠ []) (hpyd : '-' ∉ py)
    (hab : ab ≠ []) (habd : '-' ∉ ab)
    (hpl : pl ≠ []) (hpld : '-' ∉ pl) :
    PipWheel.matchAfterNamever
        ('-' :: (py ++ '-' :: (ab ++ '-' :: (pl ++ PipWheel.whlChars))))
      = some (none, some (py, ab, pl)) := by
  unfold PipWheel.matchAfterNamever
  rw [matchWhl_nobuild py ab pl hpy hpyd hab habd hpl hpld]
  rfl

theorem matchWhl_build (b0 : Char) (bt py ab pl : PipWheel.Str)
    (hb0 : b0.isDigit = true) (hbd : '-' ∉ (b0 :: bt))
    (hpy : py ≠ []) (hpyd : '-' ∉ py)
    (hab : ab ≠ []) (habd : '-' ∉ ab)
    (hpl : pl ≠ []) (hpld : '-' ∉ pl) :
    PipWheel.matchWhl
        ('-' :: b0 :: (bt ++ '-' :: (py ++ '-' :: (ab ++ '-' :: (pl ++ PipWheel.whlChars)))))
      = some (some (b0 :: bt), py, ab, pl) := by
  unfold PipWheel.matchWhl
  have hbg : PipWheel.buildGroupBranch
      ('-' :: b0 :: (bt ++ '-' :: (py ++ '-' :: (ab ++ '-' :: (pl ++ PipWheel.whlChars)))))
      = some (some (b0 :: bt), py, ab, pl) := by
    simp only [PipWheel.buildGroupBranch]
    rw [if_pos ⟨trivial, hb0⟩]
    apply tryPrefixes0_eq_some_at (PipWheel.buildCont b0) bt
      ('-' :: (py ++ '-' :: (ab ++ '-' :: (pl ++ PipWheel.whlChars)))) _
    · intro n hnlen
      obtain ⟨x, xs, hx, hxm⟩ := drop_head_mem hnlen
      rw [hx, List.cons_append]
      unfold PipWheel.buildCont
      rw [matchPats_cons_none x _
        (fun he => hbd (he ▸ List.mem_cons_of_mem b0 hxm))]
      rfl
    · unfold PipWheel.buildCont
      rw [matchPats_ok py ab pl hpy hpyd hab habd hpl hpld]
      rfl
  rw [hbg]
  rfl

theorem matchAfterNamever_build (b0 : Char) (bt py ab pl : PipWheel.Str)
    (hb0 : b0.isDigit = true) (hbd : '-' ∉ (b0 :: bt))
    (hpy : py ≠ []) (hpyd : '-' ∉ py)
    (hab : ab ≠ []) (habd : '-' ∉ ab)
    (hpl : pl ≠ []) (hpld : '-' ∉ pl) :
    PipWheel.matchAfterNamever
        ('-' :: b0 :: (bt ++ '-' :: (py ++ '-' :: (ab ++ '-' :: (pl ++ PipWheel.whlChars)))))
      = some (some (b0 :: bt), some (py, ab, pl)) := by
  unfold PipWheel.matchAfterNamever
  rw [matchWhl_build b0 bt py ab pl hb0 hbd hpy hpyd hab habd hpl hpld]
  rfl

theorem nameStep_ok_nobuild (nm : PipWheel.Str) (d : Char) (vt py ab pl : PipWheel.Str)
    (hd : d.isDigit = true) (hvd : '-' ∉ (d :: vt)) (hvt : vt ≠ [])
    (hpy : py ≠ []) (hpyd : '-' ∉ py)
    (hab : ab ≠ []) (habd : '-' ∉ ab)
    (hpl : pl ≠ []) (hpld : '-' ∉ pl) :
    PipWheel.nameStep nm
        ('-' :: d :: (vt ++ '-' :: (py ++ '-' :: (ab ++ '-' :: (pl ++ PipWheel.whlChars)))))
      = some (PipWheel.mkGroups nm (some (d :: vt)) (none, some (py, ab, pl))) := by
  unfold PipWheel.nameStep
  have hvg : PipWheel.verGroupBranch nm
      ('-' :: d :: (vt ++ '-' :: (py ++ '-' :: (ab ++ '-' :: (pl ++ PipWheel.whlChars)))))
      = some (PipWheel.mkGroups nm (some (d :: vt)) (none, some (py, ab, pl))) := by
    simp only [PipWheel.verGroupBranch]
    rw [if_pos ⟨trivial, hd⟩]
    apply tryPrefixes_eq_some_at (PipWheel.verCont nm d) vt
      ('-' :: (py ++ '-' :: (ab ++ '-' :: (pl ++ PipWheel.whlChars)))) _ hvt
    · intro n hn0 hnlen
      obtain ⟨x, xs, hx, hxm⟩ := drop_head_mem hnlen
      rw [hx, List.cons_append]
      unfold PipWheel.verCont
      have hform : ('-' : Char) :: (py ++ '-' :: (ab ++ '-' :: (pl ++ PipWheel.whlChars)))
          = ('-' :: (py ++ '-' :: (ab ++ '-' :: pl))) ++ PipWheel.whlChars := by
        simp [List.append_assoc]
      rw [hform]
      rw [matchAfterNamever_cons_none x _
        (fun he => hvd (he ▸ List.mem_cons_of_mem d hxm))
        (cons_app_whl_ne_distinfo x xs _)]
      rfl
    · unfold PipWheel.verCont
      rw [matchAfterNamever_nobuild py ab pl hpy hpyd hab habd hpl hpld]
      rfl
  rw [hvg]
  rfl

theorem nameStep_ok_build (nm : PipWheel.Str) (d : Char) (vt : PipWheel.Str)
    (b0 : Char) (bt py ab pl : PipWheel.Str)
    (hd : d.isDigit = true) (hvd : '-' ∉ (d :: vt)) (hvt : vt ≠ [])
    (hb0 : b0.isDigit = true) (hbd : '-' ∉ (b0 :: bt))
    (hpy : py ≠ []) (hpyd : '-' ∉ py)
    (hab : ab ≠ []) (habd : '-' ∉ ab)
    (hpl : pl ≠ []) (hpld : '-' ∉ pl) :
    PipWheel.nameStep nm
        ('-' :: d :: (vt ++ '-' :: b0 ::
          (bt ++ '-' :: (py ++ '-' :: (ab ++ '-' :: (pl ++ PipWheel.whlChars))))))
      = some (PipWheel.mkGroups nm (some (d :: vt))
          (some (b0 :: bt), some (py, ab, pl))) := by
  unfold PipWheel.nameStep
  have hvg : PipWheel.verGroupBranch nm
      ('-' :: d :: (vt ++ '-' :: b0 ::
        (bt ++ '-' :: (py ++ '-' :: (ab ++ '-' :: (pl ++ PipWheel.whlChars))))))
      = some (PipWheel.mkGroups nm (some (d :: vt))
          (some (b0 :: bt), some (py, ab, pl))) := by
    simp only [PipWheel.verGroupBranch]
    rw [if_pos ⟨trivial, hd⟩]
    apply tryPrefixes_eq_some_at (PipWheel.verCont nm d) vt
      ('-' :: b0 :: (bt ++ '-' :: (py ++ '-' :: (ab ++ '-' :: (pl ++ PipWheel.whlChars)))))
      _ hvt
    · intro n hn0 hnlen
      obtain ⟨x, xs, hx, hxm⟩ := drop_head_mem hnlen
      rw [hx, List.cons_append]
      unfold PipWheel.verCont
      have hform : ('-' : Char) :: b0 ::
          (bt ++ '-' :: (py ++ '-' :: (ab ++ '-' :: (pl ++ PipWheel.whlChars))))
          = ('-' :: b0 :: (bt ++ '-' :: (py ++ '-' :: (ab ++ '-' :: pl))))
              ++ PipWheel.whlChars := by
        simp [List.append_assoc]
      rw [hform]
      rw [matchAfterNamever_cons_none x _
        (fun he => hvd (he ▸ List.mem_cons_of_mem d hxm))
        (cons_app_whl_ne_distinfo x xs _)]
      rfl
    · unfold PipWheel.verCont
      rw [matchAfterNamever_build b0 bt py ab pl hb0 hbd hpy hpyd hab habd hpl hpld]
      rfl
  rw [hvg]
  rfl

theorem wheel_match_nobuild_all (nm v py ab pl : PipWheel.Str)
    (hnm : nm ≠ []) (hnmd : '-' ∉ nm)
    (hv : ∃ d t, v = d :: t ∧ d.isDigit = true ∧ t ≠ []) (hvd : '-' ∉ v)
    (hpy : py ≠ []) (hpyd : '-' ∉ py)
    (hab : ab ≠ []) (habd : '-' ∉ ab)
    (hpl : pl ≠ []) (hpld : '-' ∉ pl) :
    PipWheel.wheel_file_re_match (PipWheel.whl_filename nm v py ab pl)
      = some { name := nm, ver := some v, build := none,
               pyver := some py, abi := some ab, plat := some pl } := by
  obtain ⟨d, vt, hveq, hd, hvt⟩ := hv
  unfold PipWheel.wheel_file_re_match PipWheel.whl_filename
  apply tryPrefixes_eq_some_at _ nm
    ('-' :: (v ++ '-' :: (py ++ '-' :: (ab ++ '-' :: (pl ++ PipWheel.whlChars))))) _ hnm
  · intro n hn0 hnlen
    obtain ⟨x, xs, hx, hxm⟩ := drop_head_mem hnlen
    rw [hx, List.cons_append]
    have hform : ('-' : Char) :: (v ++ '-' :: (py ++ '-' :: (ab ++ '-' :: (pl ++ PipWheel.whlChars))))
        = ('-' :: (v ++ '-' :: (py ++ '-' :: (ab ++ '-' :: pl)))) ++ PipWheel.whlChars := by
      simp [List.append_assoc]
    rw [hform]
    exact nameStep_cons_none _ x _ (fun he => hnmd (he ▸ hxm))
      (cons_app_whl_ne_distinfo x xs _)
  · rw [hveq, List.cons_append]
    rw [nameStep_ok_nobuild nm d vt py ab pl hd (hveq ▸ hvd) hvt
      hpy hpyd hab habd hpl hpld]
    rfl

theorem wheel_match_build_all (nm v b py ab pl : PipWheel.Str)
    (hnm : nm ≠ []) (hnmd : '-' ∉ nm)
    (hv : ∃ d t, v = d :: t ∧ d.isDigit = true ∧ t ≠ []) (hvd : '-' ∉ v)
    (hb : ∃ d t, b = d :: t ∧ d.isDigit = true) (hbd : '-' ∉ b)
    (hpy : py ≠ []) (hpyd : '-' ∉ py)
    (hab : ab ≠ []) (habd : '-' ∉ ab)
    (hpl : pl ≠ []) (hpld : '-' ∉ pl) :
    PipWheel.wheel_file_re_match (PipWheel.whl_filename_build nm v b py ab pl)
      = some { name := nm, ver := some v, build := some b,
               pyver := some py, abi := some ab, plat := some pl } := by
  obtain ⟨d, vt, hveq, hd, hvt⟩ := hv
  obtain ⟨b0, bt, hbeq, hb0⟩ := hb
  unfold PipWheel.wheel_file_re_match PipWheel.whl_filename_build
  apply tryPrefixes_eq_some_at _ nm
    ('-' :: (v ++ '-' :: (b ++ '-' :: (py ++ '-' :: (ab ++ '-' :: (pl ++ PipWheel.whlChars))))))
    _ hnm
  · intro n hn0 hnlen
    obtain ⟨x, xs, hx, hxm⟩ := drop_head_mem hnlen
    rw [hx, List.cons_append]
    have hform : ('-' : Char) :: (v ++ '-' :: (b ++ '-' :: (py ++ '-' :: (ab ++ '-' :: (pl ++ PipWheel.whlChars)))))
        = ('-' :: (v ++ '-' :: (b ++ '-' :: (py ++ '-' :: (ab ++ '-' :: pl)))))
            ++ PipWheel.whlChars := by
      simp [List.append_assoc]
    rw [hform]
    exact nameStep_cons_none _ x _ (fun he => hnmd (he ▸ hxm))
      (cons_app_whl_ne_distinfo x xs _)
  · rw [hveq, hbeq, List.cons_append, List.cons_append]
    rw [nameStep_ok_build nm d vt b0 bt py ab pl hd (hveq ▸ hvd) hvt
      hb0 (hbeq ▸ hbd) hpy hpyd hab habd hpl hpld]
    rfl

/-- **C2 (amended)** — For every well-formed archive filename (name nonempty
and hyphen-free; version a digit followed by a nonempty hyphen-free rest;
optional build tag a digit followed by a hyphen-free rest; the three tag
components nonempty and hyphen-free), identity parsing succeeds and extracts
the name, the version, and the three (dot-splittable) tag components,
applying underscore-to-hyphen normalization to name and version — with or
without a build tag.  The metadata-directory-only name form is *not* parsed
into an identity: the regex matches it but leaves the tag groups absent, so
`Wheel.__init__` raises (see the counterexample). -/
theorem wheel_parse_wellformed (nm v b py ab pl : PipWheel.Str)
    (hnm : nm ≠ []) (hnmd : '-' ∉ nm)
    (hv : ∃ d t, v = d :: t ∧ d.isDigit = true ∧ t ≠ []) (hvd : '-' ∉ v)
    (hb : ∃ d t, b = d :: t ∧ d.isDigit = true) (hbd : '-' ∉ b)
    (hpy : py ≠ []) (hpyd : '-' ∉ py)
    (hab : ab ≠ []) (habd : '-' ∉ ab)
    (hpl : pl ≠ []) (hpld : '-' ∉ pl) :
    PipWheel.Wheel.init (String.mk (PipWheel.whl_filename nm v py ab pl))
      = some { filename := String.mk (PipWheel.whl_filename nm v py ab pl),
               name := String.mk (PipWheel.replaceChar '_' '-' nm),
               version := String.mk (PipWheel.replaceChar '_' '-' v),
               pyversions := (PipWheel.splitOnChar '.' py).map String.mk,
               abis := (PipWheel.splitOnChar '.' ab).map String.mk,
               plats := (PipWheel.splitOnChar '.' pl).map String.mk }
    ∧ PipWheel.Wheel.init (String.mk (PipWheel.whl_filename_build nm v b py ab pl))
      = some { filename := String.mk (PipWheel.whl_filename_build nm v b py ab pl),
               name := String.mk (PipWheel.replaceChar '_' '-' nm),
               version := String.mk (PipWheel.replaceChar '_' '-' v),
               pyversions := (PipWheel.splitOnChar '.' py).map String.mk,
               abis := (PipWheel.splitOnChar '.' ab).map String.mk,
               plats := (PipWheel.splitOnChar '.' pl).map String.mk } := by
  constructor
  · unfold PipWheel.Wheel.init
    rw [show (String.mk (PipWheel.whl_filename nm v py ab pl)).toList
        = PipWheel.whl_filename nm v py ab pl from rfl]
    rw [wheel_match_nobuild_all nm v py ab pl hnm hnmd hv hvd
      hpy hpyd hab habd hpl hpld]
  · unfold PipWheel.Wheel.init
    rw [show (String.mk (PipWheel.whl_filename_build nm v b py ab pl)).toList
        = PipWheel.whl_filename_build nm v b py ab pl from rfl]
    rw [wheel_match_build_all nm v b py ab pl hnm hnmd hv hvd hb hbd
      hpy hpyd hab habd hpl hpld]

/-- **C2 counterexample** — on the metadata-directory-only name form
`demo-1.0.dist-info` the regex matches (capturing name and version) but the
three tag groups are `None`; `Wheel.__init__` then raises on
`.split('.')` of a `None` group, so no identity with tag components is
extracted, refuting the claim for this form. -/
theorem wheel_parse_distinfo_cex :
    PipWheel.wheel_file_re_match ("demo-1.0.dist-info".toList)
      = some { name := "demo".toList, ver := some ("1.0".toList), build := none,
               pyver := none, abi := none, plat := none }
    ∧ PipWheel.Wheel.init "demo-1.0.dist-info" = none :=
  ⟨rfl, rfl⟩

theorem wheel_parse_witness :
    PipWheel.Wheel.init "foo_bar-1.0-py2.py3-none-any.whl"
      = some { filename := "foo_bar-1.0-py2.py3-none-any.whl", name := "foo-bar",
               version := "1.0", pyversions := ["py2", "py3"], abis := ["none"],
               plats := ["any"] } := by
  have h := (wheel_parse_wellformed "foo_bar".toList "1.0".toList "1".toList
      "py2.py3".toList "none".toList "any".toList
      (by decide) (by decide)
      ⟨'1', ['.', '0'], rfl, by decide, by decide⟩ (by decide)
      ⟨'1', [], rfl, by decide⟩ (by decide)
      (by decide) (by decide) (by decide) (by decide) (by decide) (by decide)).1
  exact h
